import Mathlib

/-!
Verification of the questionnaire-app assessment service.

This file shallowly embeds the Go source of the repository
(`internal/models`, `internal/services/assessment_service.go`,
`internal/storage`) in Lean 4 and proves properties of the scoring and
report-generation algorithm as well as of the assessment service layer.

Modelling choices:
* Go `int` becomes `Int` (no score in this program approaches the 64-bit
  range, so wrap-around is never modelled as observable).
* Go `map[string]T` becomes an association list `List (String × T)` with
  the usual lookup / overwrite / add-to-entry operations; the list order
  is a determinization of Go's unspecified map iteration order.
* The floating-point ratio comparisons of the report generator are
  modelled exactly, see `divLt` below.
-/

namespace QApp

/-- Embeds `models.Option` (Go struct `Option`): an answer option of a
question.  Named `Opt` because `Option` would clash with the Lean core
type of the same name. -/
structure Opt where
  id : String
  text : String
  points : Int
deriving DecidableEq, Repr

/-- Embeds `models.Question`: a weighted multiple-choice question. -/
structure Question where
  id : String
  text : String
  category : String
  options : List Opt
  weight : Int
deriving DecidableEq, Repr

/-- Embeds `models.Assessment`: an answer set for one application.
`answers` embeds the Go `map[string]string` from question id to the
selected option id. -/
structure Assessment where
  id : String
  applicationID : String
  createdAt : String
  answers : List (String × String)
  status : String
deriving DecidableEq, Repr

/-- Embeds `models.Recommendation`. -/
structure Recommendation where
  category : String
  text : String
  priority : String
deriving DecidableEq, Repr

/-- Embeds `models.Risk`. -/
structure Risk where
  category : String
  text : String
  severity : String
deriving DecidableEq, Repr

/-- Embeds `models.ModernizationStep`. -/
structure ModernizationStep where
  order : Int
  text : String
  effort : String
deriving DecidableEq, Repr

/-- Embeds `models.Report`. -/
structure Report where
  assessmentID : String
  applicationID : String
  generatedAt : String
  totalScore : Int
  maxPossibleScore : Int
  categoryScores : List (String × Int)
  recommendations : List Recommendation
  risks : List Risk
  modernizationPlan : List ModernizationStep
deriving DecidableEq, Repr

/-- Go map read `m[k]` (with presence flag): first entry with the given
key, if any. -/
def lookupS {α : Type} : List (String × α) → String → Option α
  | [], _ => none
  | (k, v) :: rest, key => if k = key then some v else lookupS rest key

/-- Go map write `m[k] = v`: overwrite the entry in place, or add it. -/
def mapSet {α : Type} : List (String × α) → String → α → List (String × α)
  | [], k, v => [(k, v)]
  | (k', v') :: rest, k, v =>
    if k' = k then (k', v) :: rest else (k', v') :: mapSet rest k v

/-- Go map accumulation `m[k] += v` (an absent key reads as zero). -/
def bumpI : List (String × Int) → String → Int → List (String × Int)
  | [], k, v => [(k, v)]
  | (k', v') :: rest, k, v =>
    if k' = k then (k', v' + v) :: rest else (k', v') :: bumpI rest k v

/-- Removal of a key from an answer map (used to state that an answer is
ignored: scoring with the key present equals scoring with it removed). -/
def removeKey {α : Type} : List (String × α) → String → List (String × α)
  | [], _ => []
  | (k, v) :: rest, key =>
    if k = key then removeKey rest key else (k, v) :: removeKey rest key

/-- Embeds the Go comparison `float64 t / float64 m < c` used by
`generateRecommendations` and `createModernizationPlan`.  For `m ≠ 0`
the IEEE-754 quotient of two integer-valued doubles compares against the
threshold literals 0.5, 0.6, 0.7 exactly as the rational quotient does
for every score magnitude this program can produce, so the comparison is
modelled as the exact rational comparison.  For `m = 0` Go produces
`+Inf`, `NaN` or `-Inf` according to the sign of `t`; of these only
`-Inf` is less than a finite threshold, so the comparison holds iff
`t < 0`.  In particular `0/0` is NaN and every `<` test on it is false. -/
def divLt (t m : Int) (c : Rat) : Bool :=
  if m = 0 then decide (t < 0) else decide ((t : Rat) / (m : Rat) < c)

/-- Embeds `maxOptionPoints`: largest point value among a question's
options, starting the running maximum at 0 as the source does. -/
def maxOptionPoints (options : List Opt) : Int :=
  options.foldl (fun m o => if o.points > m then o.points else m) 0

/-- The four accumulators of the scoring loop in `generateReport`:
`totalScore`, `maxScore`, `categoryScores`, `categoryMaxScores`. -/
structure ScoreAcc where
  total : Int
  maxScore : Int
  catScores : List (String × Int)
  catMax : List (String × Int)
deriving DecidableEq, Repr

/-- One iteration of the scoring loop of `generateReport`: accumulate the
question's ceiling into `maxScore`/`catMax`, then, if the question is
answered and the referenced option exists, accumulate its weighted points
into `total`/`catScores`. -/
def scoreStep (answers : List (String × String)) (acc : ScoreAcc) (q : Question) : ScoreAcc :=
  let mq := q.weight * maxOptionPoints q.options
  let acc1 : ScoreAcc :=
    { acc with maxScore := acc.maxScore + mq, catMax := bumpI acc.catMax q.category mq }
  match lookupS answers q.id with
  | none => acc1
  | some oid =>
    match q.options.find? (fun o => o.id == oid) with
    | none => acc1
    | some o =>
      { acc1 with
        total := acc1.total + o.points * q.weight,
        catScores := bumpI acc1.catScores q.category (o.points * q.weight) }

/-- The scoring loop of `generateReport` over the whole catalog. -/
def computeScores (questions : List Question) (answers : List (String × String)) : ScoreAcc :=
  questions.foldl (scoreStep answers) ⟨0, 0, [], []⟩

/-- The weighted score one question contributes to `totalScore`
(zero when unanswered or when the referenced option does not exist). -/
def answerScore (answers : List (String × String)) (q : Question) : Int :=
  match lookupS answers q.id with
  | none => 0
  | some oid =>
    match q.options.find? (fun o => o.id == oid) with
    | none => 0
    | some o => o.points * q.weight

/-- The ceiling one question contributes to `maxScore`. -/
def questionMax (q : Question) : Int :=
  q.weight * maxOptionPoints q.options

theorem scoreStep_total (ans : List (String × String)) (acc : ScoreAcc) (q : Question) :
    (scoreStep ans acc q).total = acc.total + answerScore ans q := by
  unfold scoreStep answerScore
  cases lookupS ans q.id with
  | none => simp
  | some oid =>
    cases hf : (q.options.find? (fun o => o.id == oid)) <;> simp [hf]

theorem scoreStep_maxScore (ans : List (String × String)) (acc : ScoreAcc) (q : Question) :
    (scoreStep ans acc q).maxScore = acc.maxScore + questionMax q := by
  unfold scoreStep questionMax
  cases lookupS ans q.id with
  | none => simp
  | some oid =>
    cases hf : (q.options.find? (fun o => o.id == oid)) <;> simp [hf]

theorem foldl_scoreStep_total (ans : List (String × String)) :
    ∀ (qs : List Question) (acc : ScoreAcc),
      (qs.foldl (scoreStep ans) acc).total = acc.total + (qs.map (answerScore ans)).sum := by
  intro qs
  induction qs with
  | nil => intro acc; simp
  | cons q qs ih =>
    intro acc
    simp only [List.foldl_cons, List.map_cons, List.sum_cons]
    rw [ih, scoreStep_total, add_assoc]

theorem foldl_scoreStep_maxScore (ans : List (String × String)) :
    ∀ (qs : List Question) (acc : ScoreAcc),
      (qs.foldl (scoreStep ans) acc).maxScore = acc.maxScore + (qs.map questionMax).sum := by
  intro qs
  induction qs with
  | nil => intro acc; simp
  | cons q qs ih =>
    intro acc
    simp only [List.foldl_cons, List.map_cons, List.sum_cons]
    rw [ih, scoreStep_maxScore, add_assoc]

theorem computeScores_total (qs : List Question) (ans : List (String × String)) :
    (computeScores qs ans).total = (qs.map (answerScore ans)).sum := by
  unfold computeScores
  rw [foldl_scoreStep_total]
  simp

theorem computeScores_maxScore (qs : List Question) (ans : List (String × String)) :
    (computeScores qs ans).maxScore = (qs.map questionMax).sum := by
  unfold computeScores
  rw [foldl_scoreStep_maxScore]
  simp

theorem foldl_points_le (l : List Opt) :
    ∀ m m' : Int, m ≤ m' →
      l.foldl (fun m o => if o.points > m then o.points else m) m ≤
      l.foldl (fun m o => if o.points > m then o.points else m) m' := by
  induction l with
  | nil => intro m m' h; simpa using h
  | cons o l ih =>
    intro m m' h
    simp only [List.foldl_cons]
    apply ih
    by_cases h1 : o.points > m <;> by_cases h2 : o.points > m' <;>
      simp [h1, h2] <;> omega

theorem le_foldl_points (l : List Opt) :
    ∀ m : Int, m ≤ l.foldl (fun m o => if o.points > m then o.points else m) m := by
  induction l with
  | nil => intro m; simp
  | cons o l ih =>
    intro m
    simp only [List.foldl_cons]
    refine le_trans ?_ (ih _)
    by_cases h : o.points > m <;> simp [h] <;> omega

theorem maxOptionPoints_nonneg (l : List Opt) : 0 ≤ maxOptionPoints l :=
  le_foldl_points l 0

theorem points_le_maxOptionPoints (l : List Opt) (o : Opt) (ho : o ∈ l) :
    o.points ≤ maxOptionPoints l := by
  unfold maxOptionPoints
  induction l with
  | nil => cases ho
  | cons a l ih =>
    rcases List.mem_cons.mp ho with h | h
    · subst h
      simp only [List.foldl_cons]
      refine le_trans ?_ (le_foldl_points l _)
      by_cases hc : o.points > 0 <;> simp [hc] <;> omega
    · simp only [List.foldl_cons]
      refine le_trans (ih h) ?_
      apply foldl_points_le
      by_cases hc : a.points > 0 <;> simp [hc] <;> omega

/-! ## Report generator (`generateRecommendations`, `createModernizationPlan`) -/

/-- The overall `"General"` recommendation emitted when the overall score
quotient is below 0.5. -/
def highGeneralRec : Recommendation :=
  ⟨"General", "Application requires significant modifications for Kubernetes deployment", "High"⟩

/-- The overall `"General"` recommendation of the middle tier. -/
def medGeneralRec : Recommendation :=
  ⟨"General", "Application needs moderate changes to be suitable for Kubernetes", "Medium"⟩

/-- The overall `"General"` recommendation of the top tier. -/
def lowGeneralRec : Recommendation :=
  ⟨"General", "Application is a good candidate for Kubernetes deployment", "Low"⟩

/-- The deployment risk emitted together with `highGeneralRec`. -/
def deplRisk : Risk :=
  ⟨"Deployment", "Application architecture not suitable for containerization", "High"⟩

/-- The category-specific recommendation for a weak `"Architecture"` score. -/
def archRec : Recommendation :=
  ⟨"Architecture", "Consider refactoring application architecture to be more containerization-friendly", "High"⟩

/-- The category-specific risk for a weak `"Architecture"` score. -/
def archRisk : Risk :=
  ⟨"Architecture", "Complex architecture may lead to challenges in containerization", "High"⟩

/-- The category-specific recommendation for a weak `"Persistence"` score. -/
def persRec : Recommendation :=
  ⟨"Persistence", "Review database access patterns for compatibility with Kubernetes", "Medium"⟩

/-- The category-specific risk for a weak `"Persistence"` score. -/
def persRisk : Risk :=
  ⟨"Persistence", "Data persistence implementation may cause issues in containerized environment", "Medium"⟩

/-- The overall-tier part of `generateRecommendations`: the single
`"General"` recommendation plus, in the lowest tier only, the deployment
risk. -/
def overallPart (totalScore maxScore : Int) : List Recommendation × List Risk :=
  if divLt totalScore maxScore (1/2) then ([highGeneralRec], [deplRisk])
  else if divLt totalScore maxScore (7/10) then ([medGeneralRec], [])
  else ([lowGeneralRec], [])

/-- One iteration of the category loop of `generateRecommendations`:
skip a category with an absent or zero maximum, otherwise apply the two
hard-coded category rules. -/
def catStep (categoryMaxScores : List (String × Int))
    (acc : List Recommendation × List Risk) (e : String × Int) :
    List Recommendation × List Risk :=
  match lookupS categoryMaxScores e.1 with
  | none => acc
  | some mx =>
    if mx = 0 then acc
    else if divLt e.2 mx (1/2) && e.1 == "Architecture" then
      (acc.1 ++ [archRec], acc.2 ++ [archRisk])
    else if divLt e.2 mx (3/5) && e.1 == "Persistence" then
      (acc.1 ++ [persRec], acc.2 ++ [persRisk])
    else acc

/-- The category loop of `generateRecommendations` run from empty lists. -/
def catPart (categoryScores categoryMaxScores : List (String × Int)) :
    List Recommendation × List Risk :=
  categoryScores.foldl (catStep categoryMaxScores) ([], [])

/-- Embeds `generateRecommendations`: the recommendations and risks the
report generator appends, first the overall tier, then the category
loop. -/
def generateRecommendations (totalScore maxScore : Int)
    (categoryScores categoryMaxScores : List (String × Int)) :
    List Recommendation × List Risk :=
  categoryScores.foldl (catStep categoryMaxScores) (overallPart totalScore maxScore)

/-- The score-dependent middle block of `createModernizationPlan`. -/
def condSteps (totalScore maxScore : Int) : List ModernizationStep :=
  if divLt totalScore maxScore (1/2) then
    [⟨2, "Refactor application architecture for microservices", "High"⟩,
     ⟨3, "Implement appropriate data persistence strategy", "High"⟩,
     ⟨4, "Create containerization strategy with multiple containers", "Medium"⟩]
  else if divLt totalScore maxScore (7/10) then
    [⟨2, "Refactor specific components for containerization", "Medium"⟩,
     ⟨3, "Adapt data persistence for cloud environment", "Medium"⟩]
  else []

/-- Embeds `createModernizationPlan`: one fixed leading step, the
score-dependent block, then four fixed trailing steps whose `order`
fields continue from the current plan length, exactly as the source
computes them with `len(plan) + 1` … `len(plan) + 4`. -/
def createModernizationPlan (totalScore maxScore : Int) : List ModernizationStep :=
  let plan :=
    [(⟨1, "Analyze application dependencies and external integrations", "Low"⟩ : ModernizationStep)]
    ++ condSteps totalScore maxScore
  plan ++
    [⟨(plan.length : Int) + 1, "Containerize application components", "Medium"⟩,
     ⟨(plan.length : Int) + 2, "Create Kubernetes deployment manifests", "Medium"⟩,
     ⟨(plan.length : Int) + 3, "Set up CI/CD pipeline for Kubernetes deployment", "Medium"⟩,
     ⟨(plan.length : Int) + 4, "Implement monitoring and observability", "Medium"⟩]

/-- Embeds `generateReport`: run the scoring loop, then attach the
recommendations, risks and modernization plan.  The `now` parameter
stands for the wall-clock timestamp the source obtains from
`time.Now()`. -/
def generateReport (now : String) (assessment : Assessment) (questions : List Question) : Report :=
  let sc := computeScores questions assessment.answers
  let rr := generateRecommendations sc.total sc.maxScore sc.catScores sc.catMax
  { assessmentID := assessment.id
    applicationID := assessment.applicationID
    generatedAt := now
    totalScore := sc.total
    maxPossibleScore := sc.maxScore
    categoryScores := sc.catScores
    recommendations := rr.1
    risks := rr.2
    modernizationPlan := createModernizationPlan sc.total sc.maxScore }

theorem divLt_true_iff (t m : Int) (c : Rat) (hm : m ≠ 0) :
    divLt t m c = true ↔ (t : Rat) / (m : Rat) < c := by
  simp [divLt, hm]

theorem divLt_false_iff (t m : Int) (c : Rat) (hm : m ≠ 0) :
    divLt t m c = false ↔ ¬((t : Rat) / (m : Rat) < c) := by
  rw [← Bool.not_eq_true, divLt_true_iff t m c hm]

theorem catStep_decomp (cms : List (String × Int))
    (acc : List Recommendation × List Risk) (e : String × Int) :
    catStep cms acc e =
      (acc.1 ++ (catStep cms ([], []) e).1, acc.2 ++ (catStep cms ([], []) e).2) := by
  unfold catStep
  cases lookupS cms e.1 with
  | none => simp
  | some mx =>
    dsimp only
    split_ifs <;> simp

theorem foldl_catStep_decomp (cms : List (String × Int)) :
    ∀ (cs : List (String × Int)) (acc : List Recommendation × List Risk),
      cs.foldl (catStep cms) acc =
        (acc.1 ++ (catPart cs cms).1, acc.2 ++ (catPart cs cms).2) := by
  intro cs
  induction cs with
  | nil => intro acc; simp [catPart]
  | cons e cs ih =>
    intro acc
    have hd : catPart (e :: cs) cms = List.foldl (catStep cms) (catStep cms ([], []) e) cs := rfl
    rw [List.foldl_cons, ih (catStep cms acc e), hd, ih (catStep cms ([], []) e),
        catStep_decomp cms acc e]
    simp [List.append_assoc]

theorem catPart_cons_eq (cms : List (String × Int)) (e : String × Int)
    (cs : List (String × Int)) :
    catPart (e :: cs) cms =
      ((catStep cms ([], []) e).1 ++ (catPart cs cms).1,
       (catStep cms ([], []) e).2 ++ (catPart cs cms).2) := by
  have hd : catPart (e :: cs) cms = List.foldl (catStep cms) (catStep cms ([], []) e) cs := rfl
  rw [hd, foldl_catStep_decomp]

theorem genRecs_decomp (t m : Int) (cs cms : List (String × Int)) :
    generateRecommendations t m cs cms =
      ((overallPart t m).1 ++ (catPart cs cms).1,
       (overallPart t m).2 ++ (catPart cs cms).2) := by
  unfold generateRecommendations
  rw [foldl_catStep_decomp]

theorem mem_catPart_fst (cms : List (String × Int)) (r : Recommendation) :
    ∀ cs : List (String × Int),
      r ∈ (catPart cs cms).1 ↔ ∃ e ∈ cs, r ∈ (catStep cms ([], []) e).1 := by
  intro cs
  induction cs with
  | nil => simp [catPart]
  | cons e cs ih =>
    rw [catPart_cons_eq]
    simp only [List.mem_append, ih, List.mem_cons]
    constructor
    · rintro (h | ⟨e', he', hr⟩)
      · exact ⟨e, Or.inl rfl, h⟩
      · exact ⟨e', Or.inr he', hr⟩
    · rintro ⟨e', he' | he', hr⟩
      · subst he'; exact Or.inl hr
      · exact Or.inr ⟨e', he', hr⟩

theorem mem_catPart_snd (cms : List (String × Int)) (k : Risk) :
    ∀ cs : List (String × Int),
      k ∈ (catPart cs cms).2 ↔ ∃ e ∈ cs, k ∈ (catStep cms ([], []) e).2 := by
  intro cs
  induction cs with
  | nil => simp [catPart]
  | cons e cs ih =>
    rw [catPart_cons_eq]
    simp only [List.mem_append, ih, List.mem_cons]
    constructor
    · rintro (h | ⟨e', he', hr⟩)
      · exact ⟨e, Or.inl rfl, h⟩
      · exact ⟨e', Or.inr he', hr⟩
    · rintro ⟨e', he' | he', hr⟩
      · subst he'; exact Or.inl hr
      · exact Or.inr ⟨e', he', hr⟩

theorem mem_catStep_fst (cms : List (String × Int)) (e : String × Int) (r : Recommendation) :
    r ∈ (catStep cms ([], []) e).1 ↔
      ∃ mx, lookupS cms e.1 = some mx ∧ mx ≠ 0 ∧
        ((e.1 = "Architecture" ∧ divLt e.2 mx (1/2) = true ∧ r = archRec) ∨
         (e.1 = "Persistence" ∧ divLt e.2 mx (3/5) = true ∧ r = persRec)) := by
  unfold catStep
  cases hmx : lookupS cms e.1 with
  | none => simp
  | some mx =>
    dsimp only
    split_ifs with hz h1 h2
    · simp [hz]
    · rw [Bool.and_eq_true, beq_iff_eq] at h1
      obtain ⟨hd, he⟩ := h1
      simp only [List.nil_append, List.mem_singleton, Option.some.injEq]
      constructor
      · intro hr
        exact ⟨mx, rfl, hz, Or.inl ⟨he, hd, hr⟩⟩
      · rintro ⟨mx', hmx', hnz, ⟨_, _, hr⟩ | ⟨hp, _, _⟩⟩
        · exact hr
        · rw [he] at hp
          exact absurd hp (by decide)
    · rw [Bool.and_eq_true, beq_iff_eq] at h2
      obtain ⟨hd, he⟩ := h2
      simp only [List.nil_append, List.mem_singleton, Option.some.injEq]
      constructor
      · intro hr
        exact ⟨mx, rfl, hz, Or.inr ⟨he, hd, hr⟩⟩
      · rintro ⟨mx', hmx', hnz, ⟨ha, _, _⟩ | ⟨_, _, hr⟩⟩
        · rw [he] at ha
          exact absurd ha (by decide)
        · exact hr
    · constructor
      · intro hr
        simp at hr
      · rintro ⟨mx', hmx', hnz, ⟨ha, hd, _⟩ | ⟨hp, hd, _⟩⟩
        · obtain rfl : mx = mx' := by injection hmx'
          exact absurd (by rw [Bool.and_eq_true, beq_iff_eq]; exact ⟨hd, ha⟩) h1
        · obtain rfl : mx = mx' := by injection hmx'
          exact absurd (by rw [Bool.and_eq_true, beq_iff_eq]; exact ⟨hd, hp⟩) h2

theorem mem_catStep_snd (cms : List (String × Int)) (e : String × Int) (k : Risk) :
    k ∈ (catStep cms ([], []) e).2 ↔
      ∃ mx, lookupS cms e.1 = some mx ∧ mx ≠ 0 ∧
        ((e.1 = "Architecture" ∧ divLt e.2 mx (1/2) = true ∧ k = archRisk) ∨
         (e.1 = "Persistence" ∧ divLt e.2 mx (3/5) = true ∧ k = persRisk)) := by
  unfold catStep
  cases hmx : lookupS cms e.1 with
  | none => simp
  | some mx =>
    dsimp only
    split_ifs with hz h1 h2
    · simp [hz]
    · rw [Bool.and_eq_true, beq_iff_eq] at h1
      obtain ⟨hd, he⟩ := h1
      simp only [List.nil_append, List.mem_singleton, Option.some.injEq]
      constructor
      · intro hr
        exact ⟨mx, rfl, hz, Or.inl ⟨he, hd, hr⟩⟩
      · rintro ⟨mx', hmx', hnz, ⟨_, _, hr⟩ | ⟨hp, _, _⟩⟩
        · exact hr
        · rw [he] at hp
          exact absurd hp (by decide)
    · rw [Bool.and_eq_true, beq_iff_eq] at h2
      obtain ⟨hd, he⟩ := h2
      simp only [List.nil_append, List.mem_singleton, Option.some.injEq]
      constructor
      · intro hr
        exact ⟨mx, rfl, hz, Or.inr ⟨he, hd, hr⟩⟩
      · rintro ⟨mx', hmx', hnz, ⟨ha, _, _⟩ | ⟨_, _, hr⟩⟩
        · rw [he] at ha
          exact absurd ha (by decide)
        · exact hr
    · constructor
      · intro hr
        simp at hr
      · rintro ⟨mx', hmx', hnz, ⟨ha, hd, _⟩ | ⟨hp, hd, _⟩⟩
        · obtain rfl : mx = mx' := by injection hmx'
          exact absurd (by rw [Bool.and_eq_true, beq_iff_eq]; exact ⟨hd, ha⟩) h1
        · obtain rfl : mx = mx' := by injection hmx'
          exact absurd (by rw [Bool.and_eq_true, beq_iff_eq]; exact ⟨hd, hp⟩) h2

/-! ## Claims C7, C2, C3, C1 -/

/-- C7: in every generated recommendation/risk pair, besides the overall
tier entries, a category-specific recommendation or risk appears exactly
for a `"Architecture"` entry of the per-category scores whose maximum is
present, non-zero and whose score quotient is below 0.5 (High/High pair),
and for a `"Persistence"` entry whose quotient is below 0.6
(Medium/Medium pair); categories with an absent or zero maximum and all
other categories contribute nothing. -/
theorem c7_category_rules (t m : Int) (cs cms : List (String × Int)) :
    (∀ r : Recommendation,
        r ∈ (generateRecommendations t m cs cms).1 ↔
          (r ∈ (overallPart t m).1 ∨
           (r = archRec ∧ ∃ s mx, ("Architecture", s) ∈ cs ∧
              lookupS cms "Architecture" = some mx ∧ mx ≠ 0 ∧
              (s : Rat) / (mx : Rat) < 1/2) ∨
           (r = persRec ∧ ∃ s mx, ("Persistence", s) ∈ cs ∧
              lookupS cms "Persistence" = some mx ∧ mx ≠ 0 ∧
              (s : Rat) / (mx : Rat) < 3/5))) ∧
    (∀ k : Risk,
        k ∈ (generateRecommendations t m cs cms).2 ↔
          (k ∈ (overallPart t m).2 ∨
           (k = archRisk ∧ ∃ s mx, ("Architecture", s) ∈ cs ∧
              lookupS cms "Architecture" = some mx ∧ mx ≠ 0 ∧
              (s : Rat) / (mx : Rat) < 1/2) ∨
           (k = persRisk ∧ ∃ s mx, ("Persistence", s) ∈ cs ∧
              lookupS cms "Persistence" = some mx ∧ mx ≠ 0 ∧
              (s : Rat) / (mx : Rat) < 3/5))) := by
  constructor
  · intro r
    rw [genRecs_decomp]
    dsimp only
    rw [List.mem_append, mem_catPart_fst]
    apply or_congr_right
    constructor
    · rintro ⟨e, he, hr⟩
      rcases (mem_catStep_fst cms e r).mp hr with
        ⟨mx, hmx, hnz, ⟨hc, hd, hr'⟩ | ⟨hc, hd, hr'⟩⟩
      · refine Or.inl ⟨hr', e.2, mx, ?_, ?_, hnz, (divLt_true_iff _ _ _ hnz).mp hd⟩
        · rw [← hc]
          exact he
        · rw [← hc]
          exact hmx
      · refine Or.inr ⟨hr', e.2, mx, ?_, ?_, hnz, (divLt_true_iff _ _ _ hnz).mp hd⟩
        · rw [← hc]
          exact he
        · rw [← hc]
          exact hmx
    · rintro (⟨hr, s, mx, hin, hlk, hnz, hlt⟩ | ⟨hr, s, mx, hin, hlk, hnz, hlt⟩)
      · exact ⟨("Architecture", s), hin,
          (mem_catStep_fst cms ("Architecture", s) r).mpr
            ⟨mx, hlk, hnz, Or.inl ⟨rfl, (divLt_true_iff _ _ _ hnz).mpr hlt, hr⟩⟩⟩
      · exact ⟨("Persistence", s), hin,
          (mem_catStep_fst cms ("Persistence", s) r).mpr
            ⟨mx, hlk, hnz, Or.inr ⟨rfl, (divLt_true_iff _ _ _ hnz).mpr hlt, hr⟩⟩⟩
  · intro k
    rw [genRecs_decomp]
    dsimp only
    rw [List.mem_append, mem_catPart_snd]
    apply or_congr_right
    constructor
    · rintro ⟨e, he, hr⟩
      rcases (mem_catStep_snd cms e k).mp hr with
        ⟨mx, hmx, hnz, ⟨hc, hd, hr'⟩ | ⟨hc, hd, hr'⟩⟩
      · refine Or.inl ⟨hr', e.2, mx, ?_, ?_, hnz, (divLt_true_iff _ _ _ hnz).mp hd⟩
        · rw [← hc]
          exact he
        · rw [← hc]
          exact hmx
      · refine Or.inr ⟨hr', e.2, mx, ?_, ?_, hnz, (divLt_true_iff _ _ _ hnz).mp hd⟩
        · rw [← hc]
          exact he
        · rw [← hc]
          exact hmx
    · rintro (⟨hr, s, mx, hin, hlk, hnz, hlt⟩ | ⟨hr, s, mx, hin, hlk, hnz, hlt⟩)
      · exact ⟨("Architecture", s), hin,
          (mem_catStep_snd cms ("Architecture", s) k).mpr
            ⟨mx, hlk, hnz, Or.inl ⟨rfl, (divLt_true_iff _ _ _ hnz).mpr hlt, hr⟩⟩⟩
      · exact ⟨("Persistence", s), hin,
          (mem_catStep_snd cms ("Persistence", s) k).mpr
            ⟨mx, hlk, hnz, Or.inr ⟨rfl, (divLt_true_iff _ _ _ hnz).mpr hlt, hr⟩⟩⟩

/-- C7 witness: an `"Architecture"` entry scoring 1 of 10 produces the
category recommendation. -/
theorem c7_witness :
    archRec ∈ (generateRecommendations 0 1 [("Architecture", 1)] [("Architecture", 10)]).1 := by
  have h := (c7_category_rules 0 1 [("Architecture", 1)] [("Architecture", 10)]).1 archRec
  exact h.mpr (Or.inr (Or.inl ⟨rfl, 1, 10, by decide, by decide, by decide, by norm_num⟩))

/-- C2: every generated recommendation list carries exactly one
recommendation of category `"General"`, chosen by the overall score
quotient: below 0.5 the High one together with the Deployment/High risk,
in `[0.5, 0.7)` the Medium one with no overall risk, at or above 0.7 the
Low one with no overall risk. -/
theorem c2_overall_tiers (t m : Int) (cs cms : List (String × Int)) (hm : m ≠ 0) :
    ((generateRecommendations t m cs cms).1.countP (fun r => r.category == "General") = 1) ∧
    ((t : Rat) / (m : Rat) < 1/2 →
      highGeneralRec ∈ (generateRecommendations t m cs cms).1 ∧
      deplRisk ∈ (generateRecommendations t m cs cms).2 ∧
      overallPart t m = ([highGeneralRec], [deplRisk])) ∧
    (¬((t : Rat) / (m : Rat) < 1/2) → (t : Rat) / (m : Rat) < 7/10 →
      medGeneralRec ∈ (generateRecommendations t m cs cms).1 ∧
      overallPart t m = ([medGeneralRec], [])) ∧
    (¬((t : Rat) / (m : Rat) < 7/10) →
      lowGeneralRec ∈ (generateRecommendations t m cs cms).1 ∧
      overallPart t m = ([lowGeneralRec], [])) := by
  refine ⟨?_, ?_, ?_, ?_⟩
  · rw [genRecs_decomp]
    dsimp only
    rw [List.countP_append]
    have h1 : (overallPart t m).1.countP (fun r => r.category == "General") = 1 := by
      unfold overallPart
      split_ifs <;> decide
    have h2 : (catPart cs cms).1.countP (fun r => r.category == "General") = 0 := by
      rw [List.countP_eq_zero]
      intro r hr
      rcases (mem_catPart_fst cms r cs).mp hr with ⟨e, _, hstep⟩
      rcases (mem_catStep_fst cms e r).mp hstep with
        ⟨mx, _, _, ⟨_, _, hr'⟩ | ⟨_, _, hr'⟩⟩ <;> subst hr' <;> decide
    rw [h1, h2]
  · intro hlt
    have hb : divLt t m (1/2) = true := (divLt_true_iff t m (1/2) hm).mpr hlt
    have ho : overallPart t m = ([highGeneralRec], [deplRisk]) := by
      unfold overallPart
      rw [hb, if_pos rfl]
    refine ⟨?_, ?_, ho⟩
    · rw [genRecs_decomp]
      simp [ho]
    · rw [genRecs_decomp]
      simp [ho]
  · intro h1 h2
    have hb1 : divLt t m (1/2) = false := (divLt_false_iff t m (1/2) hm).mpr h1
    have hb2 : divLt t m (7/10) = true := (divLt_true_iff t m (7/10) hm).mpr h2
    have ho : overallPart t m = ([medGeneralRec], []) := by
      unfold overallPart
      rw [hb1, hb2, if_neg (by decide), if_pos rfl]
    refine ⟨?_, ho⟩
    rw [genRecs_decomp]
    simp [ho]
  · intro h2
    have h1 : ¬((t : Rat) / (m : Rat) < 1/2) := fun hlt => h2 (lt_trans hlt (by norm_num))
    have hb1 : divLt t m (1/2) = false := (divLt_false_iff t m (1/2) hm).mpr h1
    have hb2 : divLt t m (7/10) = false := (divLt_false_iff t m (7/10) hm).mpr h2
    have ho : overallPart t m = ([lowGeneralRec], []) := by
      unfold overallPart
      rw [hb1, hb2, if_neg (by decide), if_neg (by decide)]
    refine ⟨?_, ho⟩
    rw [genRecs_decomp]
    simp [ho]

/-- C2 witness at total 0, maximum 1 (quotient 0, lowest tier). -/
theorem c2_witness :
    highGeneralRec ∈ (generateRecommendations 0 1 [] []).1 ∧
    deplRisk ∈ (generateRecommendations 0 1 [] []).2 ∧
    (generateRecommendations 0 1 [] []).1.countP (fun r => r.category == "General") = 1 := by
  have h := c2_overall_tiers 0 1 [] [] (by norm_num)
  have h2 := h.2.1 (by norm_num)
  exact ⟨h2.1, h2.2.1, h.1⟩

/-- C3: every generated modernization plan numbers its steps exactly
1..N with no gaps, starts with the fixed Low-effort analysis step and
ends with the four fixed Medium-effort steps, and for a defined overall
quotient its length is 8, 7 or 5 according to the three tiers. -/
theorem c3_plan_invariant (t m : Int) :
    (∀ i : Fin (createModernizationPlan t m).length,
        ((createModernizationPlan t m).get i).order = (i.val : Int) + 1) ∧
    (createModernizationPlan t m).head? =
      some ⟨1, "Analyze application dependencies and external integrations", "Low"⟩ ∧
    ((createModernizationPlan t m).drop ((createModernizationPlan t m).length - 4)).map
        (fun s => (s.text, s.effort)) =
      [("Containerize application components", "Medium"),
       ("Create Kubernetes deployment manifests", "Medium"),
       ("Set up CI/CD pipeline for Kubernetes deployment", "Medium"),
       ("Implement monitoring and observability", "Medium")] ∧
    (m ≠ 0 →
      (((t : Rat) / (m : Rat) < 1/2 → (createModernizationPlan t m).length = 8) ∧
       (¬((t : Rat) / (m : Rat) < 1/2) → (t : Rat) / (m : Rat) < 7/10 →
          (createModernizationPlan t m).length = 7) ∧
       (¬((t : Rat) / (m : Rat) < 7/10) → (createModernizationPlan t m).length = 5))) := by
  cases hb1 : divLt t m (1/2) with
  | true =>
    have hp : createModernizationPlan t m =
        [⟨1, "Analyze application dependencies and external integrations", "Low"⟩,
         ⟨2, "Refactor application architecture for microservices", "High"⟩,
         ⟨3, "Implement appropriate data persistence strategy", "High"⟩,
         ⟨4, "Create containerization strategy with multiple containers", "Medium"⟩,
         ⟨5, "Containerize application components", "Medium"⟩,
         ⟨6, "Create Kubernetes deployment manifests", "Medium"⟩,
         ⟨7, "Set up CI/CD pipeline for Kubernetes deployment", "Medium"⟩,
         ⟨8, "Implement monitoring and observability", "Medium"⟩] := by
      unfold createModernizationPlan condSteps
      rw [hb1, if_pos rfl]
      decide
    refine ⟨?_, ?_, ?_, ?_⟩
    · rw [hp]; decide
    · rw [hp]; decide
    · rw [hp]; decide
    · intro hm
      have hlt : (t : Rat) / (m : Rat) < 1/2 := (divLt_true_iff t m (1/2) hm).mp hb1
      refine ⟨fun _ => by rw [hp]; decide,
              fun hn _ => absurd hlt hn,
              fun hn => absurd (lt_trans hlt (by norm_num)) hn⟩
  | false =>
    cases hb2 : divLt t m (7/10) with
    | true =>
      have hp : createModernizationPlan t m =
          [⟨1, "Analyze application dependencies and external integrations", "Low"⟩,
           ⟨2, "Refactor specific components for containerization", "Medium"⟩,
           ⟨3, "Adapt data persistence for cloud environment", "Medium"⟩,
           ⟨4, "Containerize application components", "Medium"⟩,
           ⟨5, "Create Kubernetes deployment manifests", "Medium"⟩,
           ⟨6, "Set up CI/CD pipeline for Kubernetes deployment", "Medium"⟩,
           ⟨7, "Implement monitoring and observability", "Medium"⟩] := by
        unfold createModernizationPlan condSteps
        rw [hb1, hb2, if_neg (by decide), if_pos rfl]
        decide
      refine ⟨?_, ?_, ?_, ?_⟩
      · rw [hp]; decide
      · rw [hp]; decide
      · rw [hp]; decide
      · intro hm
        have hn1 : ¬((t : Rat) / (m : Rat) < 1/2) := (divLt_false_iff t m (1/2) hm).mp hb1
        have hlt : (t : Rat) / (m : Rat) < 7/10 := (divLt_true_iff t m (7/10) hm).mp hb2
        refine ⟨fun h => absurd h hn1,
                fun _ _ => by rw [hp]; decide,
                fun hn => absurd hlt hn⟩
    | false =>
      have hp : createModernizationPlan t m =
          [⟨1, "Analyze application dependencies and external integrations", "Low"⟩,
           ⟨2, "Containerize application components", "Medium"⟩,
           ⟨3, "Create Kubernetes deployment manifests", "Medium"⟩,
           ⟨4, "Set up CI/CD pipeline for Kubernetes deployment", "Medium"⟩,
           ⟨5, "Implement monitoring and observability", "Medium"⟩] := by
        unfold createModernizationPlan condSteps
        rw [hb1, hb2, if_neg (by decide), if_neg (by decide)]
        decide
      refine ⟨?_, ?_, ?_, ?_⟩
      · rw [hp]; decide
      · rw [hp]; decide
      · rw [hp]; decide
      · intro hm
        have hn2 : ¬((t : Rat) / (m : Rat) < 7/10) := (divLt_false_iff t m (7/10) hm).mp hb2
        have hn1 : ¬((t : Rat) / (m : Rat) < 1/2) :=
          fun hlt => hn2 (lt_trans hlt (by norm_num))
        refine ⟨fun h => absurd h hn1,
                fun _ h => absurd h hn2,
                fun _ => by rw [hp]; decide⟩

/-- C3 witness at total 0, maximum 1 (quotient 0, lowest tier): the plan
has 8 steps numbered 1..8. -/
theorem c3_witness :
    (createModernizationPlan 0 1).length = 8 ∧
    (∀ i : Fin (createModernizationPlan 0 1).length,
        ((createModernizationPlan 0 1).get i).order = (i.val : Int) + 1) := by
  have h := c3_plan_invariant 0 1
  exact ⟨(h.2.2.2 (by norm_num)).1 (by norm_num), h.1⟩

/-- C1 counterexample: for the empty catalog (so `maxPossible = 0`) the
generated report does not carry the `< 0.5`-tier High recommendation and
its plan does not have 8 steps; instead it carries the top-tier Low
recommendation and the 5-step plan, because `0/0` is NaN in the source
and NaN fails every `<` threshold test. -/
theorem c1_counterexample :
    (generateReport "t1" ⟨"a1", "app1", "t0", [], "in_progress"⟩ []).maxPossibleScore = 0 ∧
    (generateReport "t1" ⟨"a1", "app1", "t0", [], "in_progress"⟩ []).totalScore = 0 ∧
    highGeneralRec ∉ (generateReport "t1" ⟨"a1", "app1", "t0", [], "in_progress"⟩ []).recommendations ∧
    (generateReport "t1" ⟨"a1", "app1", "t0", [], "in_progress"⟩ []).modernizationPlan.length ≠ 8 ∧
    (generateReport "t1" ⟨"a1", "app1", "t0", [], "in_progress"⟩ []).recommendations = [lowGeneralRec] ∧
    (generateReport "t1" ⟨"a1", "app1", "t0", [], "in_progress"⟩ []).modernizationPlan.length = 5 := by
  decide

/-- C1 as amended: for every input scoring to `total = 0` and
`maxPossible = 0` (in particular the empty catalog), report generation
does not fault, but the overall recommendation is the top-tier Low one
and the plan has 5 steps, since the NaN quotient fails every threshold
test. -/
theorem c1_amended (now : String) (a : Assessment) (qs : List Question)
    (ht : (computeScores qs a.answers).total = 0)
    (hm : (computeScores qs a.answers).maxScore = 0) :
    (generateReport now a qs).recommendations.head? = some lowGeneralRec ∧
    (generateReport now a qs).modernizationPlan.length = 5 := by
  unfold generateReport
  dsimp only
  rw [ht, hm]
  constructor
  · rw [genRecs_decomp]
    have ho : overallPart 0 0 = ([lowGeneralRec], []) := by decide
    rw [ho]
    simp
  · decide

/-- C1 amended witness: the empty catalog. -/
theorem c1_amended_witness :
    (generateReport "t1" ⟨"a2", "app1", "t0", [], "in_progress"⟩ []).recommendations.head? =
      some lowGeneralRec ∧
    (generateReport "t1" ⟨"a2", "app1", "t0", [], "in_progress"⟩ []).modernizationPlan.length = 5 :=
  c1_amended "t1" ⟨"a2", "app1", "t0", [], "in_progress"⟩ [] rfl rfl

/-! ## Claims C4, C5, C6: scorer properties -/

theorem lookupS_removeKey_self {α : Type} (l : List (String × α)) (k : String) :
    lookupS (removeKey l k) k = none := by
  induction l with
  | nil => rfl
  | cons p l ih =>
    rcases p with ⟨k', v⟩
    unfold removeKey
    by_cases h : k' = k
    · rw [if_pos h]
      exact ih
    · rw [if_neg h]
      unfold lookupS
      rw [if_neg h]
      exact ih

theorem lookupS_removeKey_ne {α : Type} (l : List (String × α)) (k k2 : String)
    (h : k2 ≠ k) : lookupS (removeKey l k) k2 = lookupS l k2 := by
  induction l with
  | nil => rfl
  | cons p l ih =>
    rcases p with ⟨k', v⟩
    unfold removeKey
    by_cases h1 : k' = k
    · rw [if_pos h1]
      show lookupS (removeKey l k) k2 = if k' = k2 then some v else lookupS l k2
      rw [if_neg (fun he => h (he.symm.trans h1))]
      exact ih
    · rw [if_neg h1]
      show (if k' = k2 then some v else lookupS (removeKey l k) k2) =
        if k' = k2 then some v else lookupS l k2
      by_cases h2 : k' = k2
      · rw [if_pos h2, if_pos h2]
      · rw [if_neg h2, if_neg h2]
        exact ih

theorem scoreStep_removeKey (ans : List (String × String)) (qid : String) (q : Question)
    (hq : q.id = qid → ∀ oid, lookupS ans qid = some oid →
            q.options.find? (fun o => o.id == oid) = none)
    (acc : ScoreAcc) :
    scoreStep (removeKey ans qid) acc q = scoreStep ans acc q := by
  unfold scoreStep
  by_cases hid : q.id = qid
  · rw [hid, lookupS_removeKey_self]
    cases ho : lookupS ans qid with
    | none => rfl
    | some oid =>
      dsimp only
      rw [hq hid oid ho]
  · rw [lookupS_removeKey_ne ans qid q.id hid]

/-- C4: scoring never faults on dangling references; an answer whose
option id matches no option of its question, or whose question id
matches no catalog question, contributes nothing: removing that answer
key leaves the entire scoring result (total, max and both per-category
maps) unchanged.  The hypothesis is vacuously true when no catalog
question carries the given id, which covers the stale-question case. -/
theorem foldl_scoreStep_removeKey (ans : List (String × String)) (qid : String) :
    ∀ qs : List Question,
      (∀ q ∈ qs, q.id = qid → ∀ oid, lookupS ans qid = some oid →
          q.options.find? (fun o => o.id == oid) = none) →
      ∀ acc, qs.foldl (scoreStep ans) acc = qs.foldl (scoreStep (removeKey ans qid)) acc := by
  intro qs
  induction qs with
  | nil => intro _ acc; rfl
  | cons q qs ih =>
    intro h acc
    simp only [List.foldl_cons]
    rw [scoreStep_removeKey ans qid q (h q (List.mem_cons_self q qs)) acc]
    exact ih (fun q' hq' => h q' (List.mem_cons_of_mem _ hq')) _

theorem c4_dangling_refs (qs : List Question) (ans : List (String × String)) (qid : String)
    (h : ∀ q ∈ qs, q.id = qid → ∀ oid, lookupS ans qid = some oid →
            q.options.find? (fun o => o.id == oid) = none) :
    computeScores qs ans = computeScores qs (removeKey ans qid) := by
  unfold computeScores
  exact foldl_scoreStep_removeKey ans qid qs h _

/-- C4 witness: a catalog with one question; the answer map holds a
dangling option reference for it and an answer for a question absent
from the catalog. -/
theorem c4_witness :
    computeScores [⟨"q1", "t", "Architecture", [⟨"o1", "a", 3⟩], 2⟩]
        [("q1", "nope"), ("zz", "o1")] =
      computeScores [⟨"q1", "t", "Architecture", [⟨"o1", "a", 3⟩], 2⟩]
        (removeKey [("q1", "nope"), ("zz", "o1")] "q1") :=
  c4_dangling_refs _ _ "q1" (by decide)

/-- The points of the option a given option id resolves to (0 when the
id resolves to no option), used to state monotonicity of the scorer. -/
def chosenPoints : List Opt → String → Int
  | [], _ => 0
  | o :: l, oid => if o.id == oid then o.points else chosenPoints l oid

theorem chosenPoints_eq_find (oid : String) :
    ∀ l : List Opt,
      chosenPoints l oid =
        match l.find? (fun o => o.id == oid) with
        | none => 0
        | some o => o.points := by
  intro l
  induction l with
  | nil => rfl
  | cons a l ih =>
    unfold chosenPoints
    rw [List.find?_cons]
    cases hid : (a.id == oid) with
    | true => simp [hid]
    | false => simp [hid, ih]

theorem chosenPoints_nonneg (oid : String) :
    ∀ l : List Opt, (∀ o ∈ l, 0 ≤ o.points) → 0 ≤ chosenPoints l oid := by
  intro l
  induction l with
  | nil => intro _; exact le_refl 0
  | cons a l ih =>
    intro h
    unfold chosenPoints
    by_cases hid : (a.id == oid) = true
    · rw [if_pos hid]
      exact h a (List.mem_cons_self a l)
    · rw [if_neg hid]
      exact ih (fun o ho => h o (List.mem_cons_of_mem _ ho))

theorem chosenPoints_cases (oid : String) :
    ∀ l : List Opt, chosenPoints l oid = 0 ∨ ∃ o ∈ l, chosenPoints l oid = o.points := by
  intro l
  induction l with
  | nil => exact Or.inl rfl
  | cons a l ih =>
    unfold chosenPoints
    by_cases hid : (a.id == oid) = true
    · rw [if_pos hid]
      exact Or.inr ⟨a, List.mem_cons_self a l, rfl⟩
    · rw [if_neg hid]
      rcases ih with h | ⟨o, ho, h⟩
      · exact Or.inl h
      · exact Or.inr ⟨o, List.mem_cons_of_mem _ ho, h⟩

theorem answerScore_eq_chosen (ans : List (String × String)) (q : Question) :
    answerScore ans q =
      match lookupS ans q.id with
      | none => 0
      | some oid => chosenPoints q.options oid * q.weight := by
  unfold answerScore
  cases lookupS ans q.id with
  | none => rfl
  | some oid =>
    show (match q.options.find? (fun o => o.id == oid) with
          | none => 0
          | some o => o.points * q.weight) = chosenPoints q.options oid * q.weight
    rw [chosenPoints_eq_find oid q.options]
    cases hf : q.options.find? (fun o => o.id == oid) with
    | none => simp
    | some o => simp [hf]

theorem answerScore_nonneg (ans : List (String × String)) (q : Question)
    (hw : 0 ≤ q.weight) (hp : ∀ o ∈ q.options, 0 ≤ o.points) :
    0 ≤ answerScore ans q := by
  rw [answerScore_eq_chosen]
  cases h1 : lookupS ans q.id with
  | none => exact le_refl 0
  | some oid => exact mul_nonneg (chosenPoints_nonneg oid q.options hp) hw

theorem answerScore_le_questionMax (ans : List (String × String)) (q : Question)
    (hw : 0 ≤ q.weight) : answerScore ans q ≤ questionMax q := by
  rw [answerScore_eq_chosen]
  unfold questionMax
  cases h1 : lookupS ans q.id with
  | none => exact mul_nonneg hw (maxOptionPoints_nonneg q.options)
  | some oid =>
    have hcle : chosenPoints q.options oid ≤ maxOptionPoints q.options := by
      rcases chosenPoints_cases oid q.options with h | ⟨o, ho, h⟩
      · rw [h]
        exact maxOptionPoints_nonneg q.options
      · rw [h]
        exact points_le_maxOptionPoints q.options o ho
    exact le_of_le_of_eq (mul_le_mul_of_nonneg_right hcle hw)
      (mul_comm (maxOptionPoints q.options) q.weight)

/-- C5: on a catalog of non-negative weights and non-negative option
points, the scorer satisfies `0 ≤ total ≤ maxPossible`, and the maximum
is determined by the catalog alone: two runs with different answer maps
agree on it.  (The data model of the source fixes weights as positive
and points as non-negative; the hypotheses here are even weaker.) -/
theorem c5_ceiling (qs : List Question) (ans ans2 : List (String × String))
    (hw : ∀ q ∈ qs, 0 ≤ q.weight)
    (hp : ∀ q ∈ qs, ∀ o ∈ q.options, 0 ≤ o.points) :
    (0 ≤ (computeScores qs ans).total ∧
     (computeScores qs ans).total ≤ (computeScores qs ans).maxScore) ∧
    (computeScores qs ans).maxScore = (computeScores qs ans2).maxScore := by
  refine ⟨⟨?_, ?_⟩, ?_⟩
  · rw [computeScores_total]
    apply List.sum_nonneg
    intro x hx
    rcases List.mem_map.mp hx with ⟨q, hq, rfl⟩
    exact answerScore_nonneg ans q (hw q hq) (hp q hq)
  · rw [computeScores_total, computeScores_maxScore]
    apply List.sum_le_sum
    intro q hq
    exact answerScore_le_questionMax ans q (hw q hq)
  · rw [computeScores_maxScore, computeScores_maxScore]

/-- C5 witness: one weighted question, one answered and one empty answer
map. -/
theorem c5_witness :
    (0 ≤ (computeScores [⟨"q1", "t", "Architecture", [⟨"o1", "a", 5⟩, ⟨"o2", "b", 3⟩], 2⟩]
            [("q1", "o2")]).total ∧
     (computeScores [⟨"q1", "t", "Architecture", [⟨"o1", "a", 5⟩, ⟨"o2", "b", 3⟩], 2⟩]
            [("q1", "o2")]).total ≤
       (computeScores [⟨"q1", "t", "Architecture", [⟨"o1", "a", 5⟩, ⟨"o2", "b", 3⟩], 2⟩]
            [("q1", "o2")]).maxScore) ∧
    (computeScores [⟨"q1", "t", "Architecture", [⟨"o1", "a", 5⟩, ⟨"o2", "b", 3⟩], 2⟩]
        [("q1", "o2")]).maxScore =
      (computeScores [⟨"q1", "t", "Architecture", [⟨"o1", "a", 5⟩, ⟨"o2", "b", 3⟩], 2⟩]
        []).maxScore :=
  c5_ceiling _ _ [] (by decide) (by decide)

theorem chosenPoints_set_le (oid : String) :
    ∀ (l : List Opt) (j : Nat) (o : Opt) (p : Int), l.get? j = some o → o.points ≤ p →
      chosenPoints l oid ≤ chosenPoints (l.set j { o with points := p }) oid := by
  intro l
  induction l with
  | nil =>
    intro j o p hj _
    simp at hj
  | cons a l ih =>
    intro j o p hj hp
    cases j with
    | zero =>
      obtain rfl : a = o := by
        have h0 : some a = some o := hj
        injection h0
      rw [List.set_cons_zero]
      unfold chosenPoints
      by_cases hid : (a.id == oid) = true
      · rw [if_pos hid, if_pos hid]
        exact hp
      · rw [if_neg hid, if_neg hid]
    | succ j =>
      rw [List.set_cons_succ]
      unfold chosenPoints
      by_cases hid : (a.id == oid) = true
      · rw [if_pos hid, if_pos hid]
      · rw [if_neg hid, if_neg hid]
        exact ih j o p (by simpa using hj) hp

/-- Replacement of the points of one option of one question, holding
everything else fixed (the inputs of the monotonicity claim). -/
def setOptionPoints (qs : List Question) (i j : Nat) (p : Int) : List Question :=
  match qs.get? i with
  | none => qs
  | some q =>
    match q.options.get? j with
    | none => qs
    | some o => qs.set i { q with options := q.options.set j { o with points := p } }

theorem sum_map_set_le (f : Question → Int) :
    ∀ (qs : List Question) (i : Nat) (q q' : Question), qs.get? i = some q → f q ≤ f q' →
      (qs.map f).sum ≤ ((qs.set i q').map f).sum := by
  intro qs
  induction qs with
  | nil =>
    intro i q q' h _
    simp at h
  | cons a l ih =>
    intro i q q' h hf
    cases i with
    | zero =>
      obtain rfl : a = q := by
        have : some a = some q := h
        injection this
      rw [List.set_cons_zero]
      simp only [List.map_cons, List.sum_cons]
      exact add_le_add_right hf _
    | succ i =>
      rw [List.set_cons_succ]
      simp only [List.map_cons, List.sum_cons]
      exact add_le_add_left (ih i q q' (by simpa using h) hf) _

/-- C6: for a fixed catalog and answer map, increasing the points of any
single option (in particular one selected by an answer), holding all
other options, weights and answers fixed, never decreases the computed
total score.  Non-negativity of the touched question's weight is part of
the source's data model (`weight` is a positive multiplier). -/
theorem c6_monotonic (qs : List Question) (ans : List (String × String)) (i j : Nat)
    (p : Int) (q : Question) (o : Opt)
    (hq : qs.get? i = some q) (ho : q.options.get? j = some o)
    (hp : o.points ≤ p) (hw : 0 ≤ q.weight) :
    (computeScores qs ans).total ≤ (computeScores (setOptionPoints qs i j p) ans).total := by
  have hset : setOptionPoints qs i j p =
      qs.set i { q with options := q.options.set j { o with points := p } } := by
    unfold setOptionPoints
    rw [hq]
    dsimp only
    rw [ho]
  rw [hset, computeScores_total, computeScores_total]
  apply sum_map_set_le (answerScore ans) qs i q _ hq
  rw [answerScore_eq_chosen, answerScore_eq_chosen]
  dsimp only
  cases hl : lookupS ans q.id with
  | none => exact le_refl _
  | some oid =>
    dsimp only
    exact mul_le_mul_of_nonneg_right (chosenPoints_set_le oid q.options j o p ho hp) hw

/-- C6 witness: raising the only option's points from 1 to 5. -/
theorem c6_witness :
    (computeScores [⟨"q1", "t", "Architecture", [⟨"o1", "a", 1⟩], 1⟩] [("q1", "o1")]).total ≤
      (computeScores (setOptionPoints [⟨"q1", "t", "Architecture", [⟨"o1", "a", 1⟩], 1⟩] 0 0 5)
        [("q1", "o1")]).total :=
  c6_monotonic _ _ 0 0 5 _ _ rfl rfl (by decide) (by decide)

/-! ## Service layer (`AssessmentService` over `FileStorage`): C8, C9, C10 -/

/-- The persistent store the service reads and writes.  `FileStorage`
keys assessment and report files by the record's own id field
(`assessment.ID + ".json"`, `report.AssessmentID + ".json"`), so the
lists here are looked up by those fields. -/
structure Store where
  catalog : List Question
  assessments : List Assessment
  reports : List Report
deriving DecidableEq, Repr

/-- Embeds `storage.GetQuestion`: the catalog question with the given
id, if any. -/
def getQuestion (st : Store) (id : String) : Option Question :=
  st.catalog.find? (fun q => q.id == id)

/-- Embeds `storage.GetAssessment`. -/
def getAssessment (st : Store) (id : String) : Option Assessment :=
  st.assessments.find? (fun a => a.id == id)

/-- Embeds `storage.UpdateAssessment`: fails when no assessment with
the record's id exists, otherwise overwrites it. -/
def updateAssessment (st : Store) (a : Assessment) : Except String Store :=
  if (st.assessments.find? (fun b => b.id == a.id)).isSome then
    Except.ok { st with assessments :=
      st.assessments.map (fun b => if b.id == a.id then a else b) }
  else Except.error "assessment not found"

/-- Embeds `storage.SaveReport`: an upsert keyed by the report's
assessment id (`os.WriteFile` overwrites an existing file). -/
def saveReport (st : Store) (r : Report) : Store :=
  if (st.reports.find? (fun x => x.assessmentID == r.assessmentID)).isSome then
    { st with reports :=
        st.reports.map (fun x => if x.assessmentID == r.assessmentID then r else x) }
  else { st with reports := st.reports ++ [r] }

/-- Whether a service call succeeded. -/
def isOk {ε α : Type} : Except ε α → Bool
  | Except.ok _ => true
  | Except.error _ => false

/-- Embeds `AssessmentService.SaveAnswer`: fetch the assessment, fetch
the question, check that the option belongs to the question, store the
answer and persist the assessment.  The status field is never read. -/
def saveAnswer (st : Store) (assessmentID questionID optionID : String) :
    Except String Store :=
  match getAssessment st assessmentID with
  | none => Except.error "assessment not found"
  | some assessment =>
    match getQuestion st questionID with
    | none => Except.error "question not found"
    | some question =>
      if (question.options.find? (fun o => o.id == optionID)).isSome then
        updateAssessment st
          { assessment with answers := mapSet assessment.answers questionID optionID }
      else Except.error "option not found for question"

/-- Embeds `AssessmentService.CompleteAssessment`: fetch the assessment
and the catalog, persist the `"completed"` status, then generate the
report and persist it.  `saveReportFails` injects a failure of the
final `storage.SaveReport` call; the second component is the store as
left behind by the call. -/
def completeAssessment (st : Store) (now assessmentID : String) (saveReportFails : Bool) :
    Except String Report × Store :=
  match getAssessment st assessmentID with
  | none => (Except.error "assessment not found", st)
  | some assessment =>
    let a2 := { assessment with status := "completed" }
    match updateAssessment st a2 with
    | Except.error e => (Except.error e, st)
    | Except.ok st1 =>
      let report := generateReport now a2 st.catalog
      if saveReportFails then (Except.error "failed to save report", st1)
      else (Except.ok report, saveReport st1 report)

theorem getAssessment_id (st : Store) (aid : String) (A : Assessment)
    (h : getAssessment st aid = some A) : A.id = aid := by
  unfold getAssessment at h
  simpa using List.find?_some h

theorem find?_isSome_of_mem {α : Type} (p : α → Bool) (x : α) :
    ∀ l : List α, x ∈ l → p x = true → (l.find? p).isSome = true := by
  intro l
  induction l with
  | nil =>
    intro hx _
    simp at hx
  | cons a l ih =>
    intro hx hp
    rw [List.find?_cons]
    cases hpa : p a with
    | true => simp
    | false =>
      rcases List.mem_cons.mp hx with rfl | hx'
      · rw [hpa] at hp
        simp at hp
      · simp [ih hx' hp]

theorem find?_map_of_id (φ : Assessment → Assessment) (hφ : ∀ b, (φ b).id = b.id)
    (y : String) : ∀ l : List Assessment,
      (l.map φ).find? (fun b => b.id == y) = (l.find? (fun b => b.id == y)).map φ := by
  intro l
  induction l with
  | nil => rfl
  | cons a l ih =>
    simp only [List.map_cons, List.find?_cons, hφ]
    cases hid : (a.id == y) with
    | true => simp
    | false => simp [ih]

theorem update_preserves_id (A2 b : Assessment) :
    ((if b.id == A2.id then A2 else b) : Assessment).id = b.id := by
  by_cases hb : (b.id == A2.id) = true
  · rw [if_pos hb]
    have hbe : b.id = A2.id := by simpa using hb
    exact hbe.symm
  · rw [if_neg hb]

theorem find?_update_self (l : List Assessment) (aid y : String) (A A2 : Assessment)
    (hfind : l.find? (fun b => b.id == aid) = some A) (hid : A2.id = A.id)
    (hy : y = A2.id) :
    (l.map (fun b => if b.id == y then A2 else b)).find? (fun b => b.id == aid) =
      some A2 := by
  subst hy
  rw [find?_map_of_id _ (update_preserves_id A2) aid l, hfind]
  have hA : A.id = aid := by simpa using List.find?_some hfind
  simp [hid]

theorem find?_update_other (l : List Assessment) (aid id2 y : String) (A2 : Assessment)
    (hA2 : A2.id = aid) (hne : id2 ≠ aid) (hy : y = A2.id) :
    (l.map (fun b => if b.id == y then A2 else b)).find? (fun b => b.id == id2) =
      l.find? (fun b => b.id == id2) := by
  subst hy
  rw [find?_map_of_id _ (update_preserves_id A2) id2 l]
  cases hf : l.find? (fun b => b.id == id2) with
  | none => rfl
  | some b0 =>
    have hb0 : b0.id = id2 := by simpa using List.find?_some hf
    have hcond : (b0.id == A2.id) = false := by
      rw [hb0, hA2]
      exact beq_eq_false_iff_ne.mpr hne
    simp [hcond]
    intro hcontra
    exact absurd ((hb0.symm.trans hcontra).trans hA2) hne

theorem lookupS_mapSet_self {α : Type} (k : String) (v : α) :
    ∀ l : List (String × α), lookupS (mapSet l k v) k = some v := by
  intro l
  induction l with
  | nil =>
    show (if k = k then some v else none) = some v
    rw [if_pos rfl]
  | cons p l ih =>
    rcases p with ⟨k2, v2⟩
    unfold mapSet
    by_cases h : k2 = k
    · rw [if_pos h]
      show (if k2 = k then some v else lookupS l k) = some v
      rw [if_pos h]
    · rw [if_neg h]
      show (if k2 = k then some v2 else lookupS (mapSet l k v) k) = some v
      rw [if_neg h]
      exact ih

theorem lookupS_mapSet_ne {α : Type} (k k2 : String) (v : α) (h : k2 ≠ k) :
    ∀ l : List (String × α), lookupS (mapSet l k v) k2 = lookupS l k2 := by
  intro l
  induction l with
  | nil =>
    show (if k = k2 then some v else none) = none
    rw [if_neg (fun he => h he.symm)]
  | cons p l ih =>
    rcases p with ⟨k3, v3⟩
    unfold mapSet
    by_cases h1 : k3 = k
    · rw [if_pos h1]
      show (if k3 = k2 then some v else lookupS l k2) =
        if k3 = k2 then some v3 else lookupS l k2
      rw [if_neg (fun he => h (he.symm.trans h1)), if_neg (fun he => h (he.symm.trans h1))]
    · rw [if_neg h1]
      show (if k3 = k2 then some v3 else lookupS (mapSet l k v) k2) =
        if k3 = k2 then some v3 else lookupS l k2
      by_cases h2 : k3 = k2
      · rw [if_pos h2, if_pos h2]
      · rw [if_neg h2, if_neg h2]
        exact ih

/-- Evaluation of `saveAnswer` on the success path: when the assessment
and question exist and the option belongs to the question, the call
rewrites the stored assessment in place with the new answer map. -/
theorem saveAnswer_eq_ok (st : Store) (aid qid oid : String) (A : Assessment) (q : Question)
    (hA : getAssessment st aid = some A) (h2 : getQuestion st qid = some q)
    (h3 : (q.options.find? (fun o => o.id == oid)).isSome = true) :
    saveAnswer st aid qid oid = Except.ok
      { st with assessments := st.assessments.map (fun b =>
          if b.id == A.id then { A with answers := mapSet A.answers qid oid } else b) } := by
  have hmem : A ∈ st.assessments := by
    unfold getAssessment at hA
    exact List.mem_of_find?_eq_some hA
  have hup : (st.assessments.find? (fun b => b.id == A.id)).isSome = true := by
    apply find?_isSome_of_mem _ A _ hmem
    simp
  unfold saveAnswer
  rw [hA]
  dsimp only
  rw [h2]
  dsimp only
  rw [h3, if_pos rfl]
  unfold updateAssessment
  dsimp only
  rw [if_pos hup]

/-- C8: `SaveAnswer` succeeds exactly when the assessment exists, the
question exists and the option id belongs to that question's options;
the assessment's status is nowhere among those conditions, so in
particular a valid answer is still accepted when the status is already
`"completed"`. -/
theorem c8_save_answer_conditions (st : Store) (aid qid oid : String) :
    (isOk (saveAnswer st aid qid oid) = true ↔
      ∃ A q, getAssessment st aid = some A ∧ getQuestion st qid = some q ∧
        (q.options.find? (fun o => o.id == oid)).isSome = true) ∧
    (∀ A, getAssessment st aid = some A → A.status = "completed" →
      (isOk (saveAnswer st aid qid oid) = true ↔
        ∃ q, getQuestion st qid = some q ∧
          (q.options.find? (fun o => o.id == oid)).isSome = true)) := by
  have hmain : isOk (saveAnswer st aid qid oid) = true ↔
      ∃ A q, getAssessment st aid = some A ∧ getQuestion st qid = some q ∧
        (q.options.find? (fun o => o.id == oid)).isSome = true := by
    cases h1 : getAssessment st aid with
    | none =>
      constructor
      · intro hok
        unfold saveAnswer at hok
        rw [h1] at hok
        simp [isOk] at hok
      · rintro ⟨A, q, hcontra, _⟩
        simp at hcontra
    | some A =>
      cases h2 : getQuestion st qid with
      | none =>
        constructor
        · intro hok
          unfold saveAnswer at hok
          rw [h1] at hok
          dsimp only at hok
          rw [h2] at hok
          simp [isOk] at hok
        · rintro ⟨A', q, _, hcontra, _⟩
          simp at hcontra
      | some q =>
        cases h3 : (q.options.find? (fun o => o.id == oid)).isSome with
        | false =>
          constructor
          · intro hok
            unfold saveAnswer at hok
            rw [h1] at hok
            dsimp only at hok
            rw [h2] at hok
            dsimp only at hok
            rw [h3] at hok
            simp [isOk] at hok
          · rintro ⟨A', q', _, hq', hopt⟩
            obtain rfl : q = q' := by injection hq'
            rw [h3] at hopt
            exact absurd hopt (by decide)
        | true =>
          have heq := saveAnswer_eq_ok st aid qid oid A q h1 h2 h3
          constructor
          · intro _
            exact ⟨A, q, rfl, rfl, h3⟩
          · intro _
            rw [heq]
            rfl
  refine ⟨hmain, ?_⟩
  intro A hA _
  constructor
  · intro hok
    rcases hmain.mp hok with ⟨A', q, _, hq, hopt⟩
    exact ⟨q, hq, hopt⟩
  · rintro ⟨q, hq, hopt⟩
    exact hmain.mpr ⟨A, q, hA, hq, hopt⟩

/-- A store shared by the service-layer witnesses: one catalog question
and one already-completed assessment. -/
def wStore : Store :=
  ⟨[⟨"q1", "t", "Architecture", [⟨"o1", "a", 5⟩], 2⟩],
   [⟨"a1", "app1", "t0", [], "completed"⟩], []⟩

/-- C8 witness: saving a valid answer on an assessment whose status is
already `"completed"` succeeds. -/
theorem c8_witness : isOk (saveAnswer wStore "a1" "q1" "o1") = true := by
  have h := (c8_save_answer_conditions wStore "a1" "q1" "o1").2
    ⟨"a1", "app1", "t0", [], "completed"⟩ (by decide) (by decide)
  exact h.mpr ⟨⟨"q1", "t", "Architecture", [⟨"o1", "a", 5⟩], 2⟩, by decide, by decide⟩

/-- C9: when `SaveAnswer` succeeds, the stored assessment afterwards
maps the question to the chosen option (overwriting any previous answer
for it), every other answer-map entry and every other field (id,
application id, creation time, status) is unchanged, and every other
assessment, the catalog and the reports are untouched. -/
theorem c9_save_answer_frame (st st' : Store) (aid qid oid : String) (A : Assessment)
    (hok : saveAnswer st aid qid oid = Except.ok st')
    (hA : getAssessment st aid = some A) :
    ∃ A2, getAssessment st' aid = some A2 ∧
      lookupS A2.answers qid = some oid ∧
      (∀ k, k ≠ qid → lookupS A2.answers k = lookupS A.answers k) ∧
      A2.id = A.id ∧ A2.applicationID = A.applicationID ∧
      A2.createdAt = A.createdAt ∧ A2.status = A.status ∧
      (∀ id2, id2 ≠ aid → getAssessment st' id2 = getAssessment st id2) ∧
      st'.catalog = st.catalog ∧ st'.reports = st.reports := by
  have hAid : A.id = aid := getAssessment_id st aid A hA
  cases h2 : getQuestion st qid with
  | none =>
    unfold saveAnswer at hok
    rw [hA] at hok
    dsimp only at hok
    rw [h2] at hok
    simp at hok
  | some q =>
    cases h3 : (q.options.find? (fun o => o.id == oid)).isSome with
    | false =>
      unfold saveAnswer at hok
      rw [hA] at hok
      dsimp only at hok
      rw [h2] at hok
      dsimp only at hok
      rw [h3] at hok
      simp at hok
    | true =>
      rw [saveAnswer_eq_ok st aid qid oid A q hA h2 h3] at hok
      have hst' : st' = { st with assessments := st.assessments.map (fun b =>
          if b.id == A.id then { A with answers := mapSet A.answers qid oid } else b) } := by
        injection hok with h
        exact h.symm
      subst hst'
      have hfind : st.assessments.find? (fun b => b.id == aid) = some A := by
        unfold getAssessment at hA
        exact hA
      refine ⟨{ A with answers := mapSet A.answers qid oid },
        ?_, ?_, ?_, rfl, rfl, rfl, rfl, ?_, rfl, rfl⟩
      · exact find?_update_self st.assessments aid A.id A _ hfind rfl rfl
      · exact lookupS_mapSet_self qid oid A.answers
      · intro k hk
        exact lookupS_mapSet_ne qid k oid hk A.answers
      · intro id2 hne
        exact find?_update_other st.assessments aid id2 A.id _ hAid hne rfl

/-- C9 witness: answering question `q1` with option `o1` on the witness
store. -/
theorem c9_witness :
    ∃ st' A2,
      saveAnswer wStore "a1" "q1" "o1" = Except.ok st' ∧
      getAssessment st' "a1" = some A2 ∧
      lookupS A2.answers "q1" = some "o1" ∧
      A2.status = "completed" ∧
      st'.reports = wStore.reports := by
  have hok : saveAnswer wStore "a1" "q1" "o1" =
      Except.ok ⟨[⟨"q1", "t", "Architecture", [⟨"o1", "a", 5⟩], 2⟩],
        [⟨"a1", "app1", "t0", [("q1", "o1")], "completed"⟩], []⟩ := rfl
  rcases c9_save_answer_frame wStore _ "a1" "q1" "o1"
      ⟨"a1", "app1", "t0", [], "completed"⟩ hok (by decide) with
    ⟨A2, hget, hlk, _, _, _, _, hstatus, _, _, hreports⟩
  exact ⟨_, A2, hok, hget, hlk, by rw [hstatus], hreports⟩

/-- C10: `CompleteAssessment` persists the `"completed"` status before
report persistence; when saving the report fails, the call returns an
error while the assessment remains stored with status `"completed"` and
the report store is untouched (so no report exists for a first
completion). -/
theorem c10_complete_not_atomic (st : Store) (now aid : String) (A : Assessment)
    (hA : getAssessment st aid = some A) :
    (∃ e, (completeAssessment st now aid true).1 = Except.error e) ∧
    getAssessment (completeAssessment st now aid true).2 aid =
      some { A with status := "completed" } ∧
    (completeAssessment st now aid true).2.reports = st.reports := by
  have hAid : A.id = aid := getAssessment_id st aid A hA
  have hmem : A ∈ st.assessments := by
    unfold getAssessment at hA
    exact List.mem_of_find?_eq_some hA
  have hup : (st.assessments.find? (fun b => b.id == A.id)).isSome = true := by
    apply find?_isSome_of_mem _ A _ hmem
    simp
  have hcomp : completeAssessment st now aid true =
      (Except.error "failed to save report",
       { st with assessments := st.assessments.map (fun b =>
          if b.id == A.id then { A with status := "completed" } else b) }) := by
    unfold completeAssessment
    rw [hA]
    dsimp only
    unfold updateAssessment
    dsimp only
    rw [if_pos hup]
    rfl
  have hfind : st.assessments.find? (fun b => b.id == aid) = some A := by
    unfold getAssessment at hA
    exact hA
  rw [hcomp]
  exact ⟨⟨"failed to save report", rfl⟩,
    find?_update_self st.assessments aid A.id A _ hfind rfl rfl, rfl⟩

/-- C10 witness: completing the witness assessment with report
persistence failing leaves the status `"completed"` and no report. -/
theorem c10_witness :
    (∃ e, (completeAssessment wStore "t1" "a1" true).1 = Except.error e) ∧
    getAssessment (completeAssessment wStore "t1" "a1" true).2 "a1" =
      some ⟨"a1", "app1", "t0", [], "completed"⟩ ∧
    (completeAssessment wStore "t1" "a1" true).2.reports = wStore.reports := by
  have h := c10_complete_not_atomic wStore "t1" "a1"
    ⟨"a1", "app1", "t0", [], "completed"⟩ (by decide)
  exact ⟨h.1, h.2.1, h.2.2⟩

end QApp
